import Mathlib

/-!
Shallow embedding of the delivery-driver shift tracker
(`src/unnamed/part_000`, with `src/main.js` an identical copy whose
functions 7-10 are unimplemented stubs).

Modelling conventions:
* JavaScript strings are Lean `String`s; the character-level operations
  (`trim`, `toLowerCase`, `split` on a one-character separator, `Number`
  on a decimal digit field) are modelled by executable functions on
  `List Char`, because the claims and witnesses must evaluate inside the
  kernel.
* Fallible parsing (`Number` returning `NaN`, invalid `Date`s) is
  modelled with `Option`: `none` stands for the NaN/garbage path of the
  source.  Only canonical decimal digit fields are modelled as parsing
  successfully.
* The shift file is modelled as `Option (List (List String))`: `none` is
  an absent file, and each line is the list of its comma-separated
  fields (the source always splits a line on `","` immediately after
  reading and joins fields with `","` when writing, so the embedding
  works at the field level; unescaped embedded commas are out of scope,
  as the spec notes).
* `Date` values: the source builds `new Date("yyyy-mm-dd")` (UTC
  midnight per ECMA-262) and reads months/weekdays from it.  The
  embedding parses the ISO string directly and assumes a UTC runtime
  environment, so `getMonth` and `getUTCMonth` coincide.  Non-ISO date
  strings (V8 fallback parsing) are out of scope and parse to `none`,
  matching the invalid-Date/NaN path.
-/

namespace ShiftTracker

/-! ## Character-level string primitives -/

/-- Whitespace recognizer used by `trim` (ASCII whitespace suffices for the
data handled by the program). -/
def isSpaceChar (c : Char) : Bool :=
  c = ' ' ∨ c = '\t' ∨ c = '\n' ∨ c = '\r'

/-- JavaScript `String.prototype.trim` at the character-list level. -/
def trimChars (cs : List Char) : List Char :=
  ((cs.dropWhile isSpaceChar).reverse.dropWhile isSpaceChar).reverse

/-- JavaScript `String.prototype.toLowerCase` (ASCII) at the
character-list level. -/
def lowerChars (cs : List Char) : List Char :=
  cs.map Char.toLower

/-- JavaScript `String.prototype.split` with a one-character separator:
`splitChar sep cs` returns the (possibly empty) groups between
occurrences of `sep`. -/
def splitChar (sep : Char) (cs : List Char) : List (List Char) :=
  match cs with
  | [] => [[]]
  | c :: rest =>
    let r := splitChar sep rest
    if c = sep then [] :: r
    else
      match r with
      | [] => [[c]]
      | g :: gs => (c :: g) :: gs

/-- Value of a decimal digit character. -/
def digitVal (c : Char) : Option Nat :=
  if '0' ≤ c ∧ c ≤ '9' then some (c.toNat - 48) else none

/-- Left-to-right decimal accumulation over a character list. -/
def natOfCharsAux (acc : Nat) : List Char → Option Nat
  | [] => some acc
  | c :: rest =>
    match digitVal c with
    | some d => natOfCharsAux (acc * 10 + d) rest
    | none => none

/-- JavaScript `Number(...)` restricted to nonempty strings of decimal
digits; every other input is modelled as the `NaN` path (`none`). -/
def natOfChars (cs : List Char) : Option Nat :=
  match cs with
  | [] => none
  | _ => natOfCharsAux 0 cs

/-- `Number` applied to a whole string field. -/
def strToNat (s : String) : Option Nat :=
  natOfChars s.toList

/-! ## Configuration constants (`DELIVERY_CONFIG`, `DAY_SECONDS`, `DAYS`) -/

def DAY_SECONDS : Nat := 24 * 3600

def HOURS_START : Nat := 8 * 3600

def HOURS_END : Nat := 22 * 3600

def MINIMUM_NORMAL : Nat := 8 * 3600 + 24 * 60

def MINIMUM_EID : Nat := 6 * 3600

/-- The `DAYS` weekday-name table. -/
def DAYS (s : String) : Option Nat :=
  if s = "sunday" then some 0
  else if s = "monday" then some 1
  else if s = "tuesday" then some 2
  else if s = "wednesday" then some 3
  else if s = "thursday" then some 4
  else if s = "friday" then some 5
  else if s = "saturday" then some 6
  else none

/-! ## Time codec (`parseToSeconds`, `formatToTime`) -/

/-- The `am`/`pm` hour adjustment of `parseToSeconds`: `pm` adds 12
unless the hour is 12, `am` zeroes an hour of 12; any other (or absent)
modifier leaves the hour unchanged. -/
def applyModifier (modifier : Option (List Char)) (h : Nat) : Nat :=
  if modifier = some ("pm".toList) ∧ h ≠ 12 then h + 12
  else if modifier = some ("am".toList) ∧ h = 12 then 0
  else h

/-- The body of `parseToSeconds` after the space split: `parts.headD []`
is the `h:mm:ss` token (`parts[0]`), `parts.get? 1` the optional
modifier. -/
def parseClockParts (parts : List (List Char)) : Option Nat :=
  match (splitChar ':' (parts.headD [])).map natOfChars with
  | some h :: some m :: some sec :: _ =>
    some (applyModifier (parts.get? 1) h * 3600 + m * 60 + sec)
  | _ => none

/-- `parseToSeconds(str)` from the source: trim, lower-case, split on a
space into a time token and an optional `am`/`pm` modifier, split the
time token on `":"` into three numbers, apply the 12-hour rules.
`none` is the source's `NaN` result on malformed input. -/
def parseToSeconds (str : String) : Option Nat :=
  parseClockParts (splitChar ' ' (lowerChars (trimChars str.toList)))

/-- The character of a decimal digit. -/
def digitChar (n : Nat) : Char :=
  Char.ofNat (48 + n)

/-- Decimal digits of a natural number, most significant first, with an
explicit fuel parameter (`n + 1` always suffices) so the definition is
structurally recursive and kernel-evaluable. -/
def natDigitsGo (fuel n : Nat) : List Char :=
  match fuel with
  | 0 => []
  | fuel + 1 =>
    if n < 10 then [digitChar n]
    else natDigitsGo fuel (n / 10) ++ [digitChar (n % 10)]

/-- JavaScript number-to-string conversion for a nonnegative integer:
its decimal digits. -/
def natDigits (n : Nat) : List Char :=
  natDigitsGo (n + 1) n

/-- `String(n).padStart(2, "0")` at the character-list level. -/
def pad2Chars (cs : List Char) : List Char :=
  if cs.length < 2 then '0' :: cs else cs

/-- `formatToTime(seconds)` from the source: clamp negatives to `0`, then
emit `h:mm:ss` with unpadded hours and two-digit minutes and seconds. -/
def formatToTime (seconds : Int) : String :=
  let s := (if seconds < 0 then 0 else seconds).toNat
  String.mk (natDigits (s / 3600) ++ ':' ::
    (pad2Chars (natDigits (s % 3600 / 60)) ++ ':' :: pad2Chars (natDigits (s % 60))))

/-! ## Calendar dates -/

/-- Length of a month, used to validate ISO date strings the way
ECMA-262 validates `Date` fields. -/
def daysInMonth (y m : Nat) : Nat :=
  if m = 1 ∨ m = 3 ∨ m = 5 ∨ m = 7 ∨ m = 8 ∨ m = 10 ∨ m = 12 then 31
  else if m = 4 ∨ m = 6 ∨ m = 9 ∨ m = 11 then 30
  else if y % 4 = 0 ∧ (y % 100 ≠ 0 ∨ y % 400 = 0) then 29
  else 28

/-- `new Date("yyyy-mm-dd")`: an ISO date string parses to its
`(year, month, day)` triple when the fields are digit groups of widths
4-2-2 inside the valid ranges; everything else is an invalid `Date`
(`none`). -/
def parseDate (s : String) : Option (Nat × Nat × Nat) :=
  match splitChar '-' s.toList with
  | [ys, ms, ds] =>
    if ys.length = 4 ∧ ms.length = 2 ∧ ds.length = 2 then
      match natOfChars ys, natOfChars ms, natOfChars ds with
      | some y, some m, some d =>
        if 1 ≤ m ∧ m ≤ 12 ∧ 1 ≤ d ∧ d ≤ daysInMonth y m then some (y, m, d)
        else none
      | _, _, _ => none
    else none
  | _ => none

/-- Numeric key that orders valid dates the same way their epoch
timestamps do. -/
def dateIndex (y m d : Nat) : Nat :=
  y * 10000 + m * 100 + d

/-- Comparison of a valid date against the fixed Eid window
`2025-04-10 .. 2025-04-30`, inclusive on both ends
(`EID_DATE.START`/`EID_DATE.END` in the source). -/
def isEidYMD (y m d : Nat) : Bool :=
  decide (dateIndex 2025 4 10 ≤ dateIndex y m d ∧ dateIndex y m d ≤ dateIndex 2025 4 30)

/-- `currentDate >= EID_DATE.START && currentDate <= EID_DATE.END`; an
invalid `Date` compares `false` on both sides. -/
def isEidDate (date : String) : Bool :=
  match parseDate date with
  | some (y, m, d) => isEidYMD y m d
  | none => false

/-- `new Date(dateStr).getMonth() + 1` under the UTC environment
assumption; `none` is the invalid-Date `NaN` month. -/
def monthOf (date : String) : Option Nat :=
  (parseDate date).map (fun p => p.2.1)

/-- `new Date(dateStr).getUTCDay()` via Zeller's congruence
(0 = Sunday .. 6 = Saturday). -/
def dayOfWeek (y m d : Nat) : Nat :=
  let mz := if m ≤ 2 then m + 12 else m
  let yz := if m ≤ 2 then y - 1 else y
  let k := yz % 100
  let j := yz / 100
  let h := (d + 13 * (mz + 1) / 5 + k + k / 4 + j / 4 + 5 * j) % 7
  (h + 6) % 7

/-! ## Functions 1-4 -/

/-- Midnight-wrap adjustment shared by `getShiftDuration` and
`getIdleTime`: `if (endSeconds < startSeconds) endSeconds += DAY_SECONDS`. -/
def wrapEnd (startSeconds endSeconds : Nat) : Nat :=
  if endSeconds < startSeconds then endSeconds + DAY_SECONDS else endSeconds

/-- `getShiftDuration(startTime, endTime)` (function 1). -/
def getShiftDuration (startTime endTime : String) : Option String :=
  match parseToSeconds startTime, parseToSeconds endTime with
  | some s, some e => some (formatToTime ((wrapEnd s e : Int) - (s : Int)))
  | _, _ => none

/-- One iteration body plus recursion of the `while` loop of
`getIdleTime` (function 2), with an explicit fuel parameter so the
definition is structurally recursive (the kernel must be able to
evaluate it).  Truncated `Nat` subtraction coincides with the
`Math.max(0, ...)` guards of the source.  Every iteration advances the
cursor by at least one, so fuel `endSeconds - cur` suffices;
`idleLoop_eq` below recovers the exact loop equation, fuel-free. -/
def idleLoopGo (fuel endSeconds cur : Nat) : Nat :=
  match fuel with
  | 0 => 0
  | fuel + 1 =>
    if cur < endSeconds then
      let dayStart := cur / DAY_SECONDS * DAY_SECONDS
      let segEnd := min endSeconds (dayStart + DAY_SECONDS)
      (if cur < dayStart + HOURS_START then
          min segEnd (dayStart + HOURS_START) - cur else 0) +
        ((if dayStart + HOURS_END < segEnd then
            segEnd - max cur (dayStart + HOURS_END) else 0) +
          idleLoopGo fuel endSeconds segEnd)
    else 0

/-- The accumulated idle seconds of the `while` loop of `getIdleTime`,
started at cursor `cur`. -/
def idleLoop (endSeconds cur : Nat) : Nat :=
  idleLoopGo (endSeconds - cur) endSeconds cur

/-- The cursor strictly advances: the current day segment ends after
`cur`. -/
theorem cur_lt_segEnd {endSeconds cur : Nat} (h : cur < endSeconds) :
    cur < min endSeconds (cur / DAY_SECONDS * DAY_SECONDS + DAY_SECONDS) := by
  have hmod : cur % DAY_SECONDS < DAY_SECONDS := Nat.mod_lt _ (by decide)
  have hdiv : DAY_SECONDS * (cur / DAY_SECONDS) + cur % DAY_SECONDS = cur :=
    Nat.div_add_mod cur DAY_SECONDS
  have hcomm : cur / DAY_SECONDS * DAY_SECONDS = DAY_SECONDS * (cur / DAY_SECONDS) :=
    Nat.mul_comm _ _
  simp only [Nat.min_def]
  split <;> omega

/-- Any fuel at least `endSeconds - cur` computes the same loop
result. -/
theorem idleLoopGo_congr :
    ∀ (f₁ f₂ endSeconds cur : Nat), endSeconds - cur ≤ f₁ →
      endSeconds - cur ≤ f₂ →
      idleLoopGo f₁ endSeconds cur = idleLoopGo f₂ endSeconds cur := by
  intro f₁
  induction f₁ with
  | zero =>
    intro f₂ endSeconds cur h₁ _
    have hn : ¬ cur < endSeconds := by omega
    cases f₂ with
    | zero => rfl
    | succ f₂ => simp [idleLoopGo, hn]
  | succ f₁ ih =>
    intro f₂ endSeconds cur h₁ h₂
    by_cases hlt : cur < endSeconds
    · cases f₂ with
      | zero => omega
      | succ f₂ =>
        have hseg := cur_lt_segEnd hlt
        have hle : min endSeconds (cur / DAY_SECONDS * DAY_SECONDS + DAY_SECONDS)
            ≤ endSeconds := Nat.min_le_left _ _
        simp only [idleLoopGo, hlt, if_true]
        rw [ih f₂ endSeconds _ (by omega) (by omega)]
    · cases f₂ with
      | zero => simp [idleLoopGo, hlt]
      | succ f₂ => simp [idleLoopGo, hlt]

/-- The exact loop equation of `getIdleTime`'s `while` loop (lines
97-113 of the source). -/
theorem idleLoop_eq (endSeconds cur : Nat) :
    idleLoop endSeconds cur =
      if cur < endSeconds then
        let dayStart := cur / DAY_SECONDS * DAY_SECONDS
        let segEnd := min endSeconds (dayStart + DAY_SECONDS)
        (if cur < dayStart + HOURS_START then
            min segEnd (dayStart + HOURS_START) - cur else 0) +
          ((if dayStart + HOURS_END < segEnd then
              segEnd - max cur (dayStart + HOURS_END) else 0) +
            idleLoop endSeconds segEnd)
      else 0 := by
  by_cases hlt : cur < endSeconds
  · have hseg := cur_lt_segEnd hlt
    have hk : endSeconds - cur = (endSeconds - cur - 1) + 1 := by omega
    simp only [idleLoop, hlt, if_true]
    rw [hk]
    simp only [idleLoopGo, hlt, if_true]
    rw [idleLoopGo_congr (endSeconds - cur - 1)
      (endSeconds - min endSeconds (cur / DAY_SECONDS * DAY_SECONDS + DAY_SECONDS))
      endSeconds _ (by omega) (by omega)]
  · simp only [idleLoop, hlt, if_false]
    have : endSeconds - cur = 0 := by omega
    rw [this]
    rfl

/-- `getIdleTime(startTime, endTime)` (function 2). -/
def getIdleTime (startTime endTime : String) : Option String :=
  match parseToSeconds startTime, parseToSeconds endTime with
  | some s, some e => some (formatToTime (idleLoop (wrapEnd s e) s : Int))
  | _, _ => none

/-- `getActiveTime(shiftDuration, idleTime)` (function 3): the clamped
difference of the two decoded durations. -/
def getActiveTime (shiftDuration idleTime : String) : Option String :=
  match parseToSeconds shiftDuration, parseToSeconds idleTime with
  | some d, some i => some (formatToTime ((d : Int) - (i : Int)))
  | _, _ => none

/-- `metQuota(date, activeTime)` (function 4). -/
def metQuota (date activeTime : String) : Option Bool :=
  (parseToSeconds activeTime).map
    (fun t => decide (t ≥ if isEidDate date then MINIMUM_EID else MINIMUM_NORMAL))

/-! ## Round-trip of the time codec

`formatToTime` emits only decimal digits and colons, and
`parseToSeconds` decodes such a string back to the clamped seconds
value.  These lemmas let the record-store theorems speak about the
seconds encoded in the duration strings a record stores. -/

theorem digitVal_digitChar : ∀ n : Nat, n < 10 → digitVal (digitChar n) = some n := by
  decide

theorem natDigitsGo_ne_nil {f n : Nat} (hf : 0 < f) : natDigitsGo f n ≠ [] := by
  match f with
  | f + 1 =>
    simp only [natDigitsGo]
    split
    · simp
    · simp

/-- Every character `natDigitsGo` emits is a decimal digit. -/
theorem natDigitsGo_digits :
    ∀ f n c, c ∈ natDigitsGo f n → ∃ k, k < 10 ∧ c = digitChar k := by
  intro f
  induction f with
  | zero => intro n c hc; simp [natDigitsGo] at hc
  | succ f ih =>
    intro n c hc
    simp only [natDigitsGo] at hc
    by_cases hn : n < 10
    · rw [if_pos hn] at hc
      simp at hc
      exact ⟨n, hn, hc⟩
    · rw [if_neg hn] at hc
      rcases List.mem_append.mp hc with hc | hc
      · exact ih _ _ hc
      · simp at hc
        exact ⟨n % 10, Nat.mod_lt _ (by omega), hc⟩

theorem natOfCharsAux_append (acc : Nat) :
    ∀ (xs ys : List Char),
      natOfCharsAux acc (xs ++ ys) =
        match natOfCharsAux acc xs with
        | some m => natOfCharsAux m ys
        | none => none := by
  intro xs
  induction xs generalizing acc with
  | nil => intro ys; rfl
  | cons c rest ih =>
    intro ys
    simp only [List.cons_append, natOfCharsAux]
    cases digitVal c with
    | none => rfl
    | some d => exact ih _ ys

theorem natOfChars_cons_zero {cs : List Char} (h : cs ≠ []) :
    natOfChars ('0' :: cs) = natOfChars cs := by
  match cs, h with
  | c :: rest, _ =>
    show natOfCharsAux 0 ('0' :: c :: rest) = natOfCharsAux 0 (c :: rest)
    have hd : digitVal '0' = some 0 := by decide
    simp [natOfCharsAux, hd]

theorem natOfChars_append_digit {cs : List Char} (h : cs ≠ []) {k : Nat}
    (hk : k < 10) :
    natOfChars (cs ++ [digitChar k]) =
      (natOfChars cs).map (fun m => m * 10 + k) := by
  match cs, h with
  | c :: rest, _ =>
    show natOfCharsAux 0 ((c :: rest) ++ [digitChar k])
        = (natOfCharsAux 0 (c :: rest)).map (fun m => m * 10 + k)
    rw [natOfCharsAux_append]
    cases natOfCharsAux 0 (c :: rest) with
    | none => rfl
    | some m => simp [natOfCharsAux, digitVal_digitChar k hk]

theorem natOfChars_natDigitsGo :
    ∀ f n, n < f → natOfChars (natDigitsGo f n) = some n := by
  intro f
  induction f with
  | zero => omega
  | succ f ih =>
    intro n hn
    simp only [natDigitsGo]
    by_cases h10 : n < 10
    · rw [if_pos h10]
      show natOfCharsAux 0 [digitChar n] = some n
      simp [natOfCharsAux, digitVal_digitChar n h10]
    · rw [if_neg h10]
      have hne : natDigitsGo f (n / 10) ≠ [] := natDigitsGo_ne_nil (by omega)
      rw [natOfChars_append_digit hne (Nat.mod_lt _ (by omega))]
      rw [ih (n / 10) (by omega)]
      simp only [Option.map_some']
      have heq : n / 10 * 10 + n % 10 = n := by omega
      rw [heq]

theorem natOfChars_natDigits (n : Nat) : natOfChars (natDigits n) = some n :=
  natOfChars_natDigitsGo (n + 1) n (Nat.lt_succ_self n)

theorem natDigits_ne_nil (n : Nat) : natDigits n ≠ [] :=
  natDigitsGo_ne_nil (Nat.succ_pos n)

theorem natOfChars_pad2 {cs : List Char} (h : cs ≠ []) :
    natOfChars (pad2Chars cs) = natOfChars cs := by
  unfold pad2Chars
  split
  · exact natOfChars_cons_zero h
  · rfl

/-- The character classes `formatToTime` emits. -/
def timeChar (c : Char) : Prop :=
  (∃ k, k < 10 ∧ c = digitChar k) ∨ c = ':'

theorem timeChar_natDigits {n : Nat} {c : Char} (h : c ∈ natDigits n) :
    timeChar c :=
  Or.inl (natDigitsGo_digits _ _ _ h)

/-- The characters of a (possibly padded) digit group are digits. -/
theorem digit_pad2_natDigits {n : Nat} {c : Char}
    (h : c ∈ pad2Chars (natDigits n)) : ∃ k, k < 10 ∧ c = digitChar k := by
  unfold pad2Chars at h
  split at h
  · rcases List.mem_cons.mp h with h | h
    · exact ⟨0, by omega, by rw [h]; rfl⟩
    · exact natDigitsGo_digits _ _ _ h
  · exact natDigitsGo_digits _ _ _ h

theorem timeChar_pad2 {cs : List Char} (hcs : ∀ c ∈ cs, timeChar c) :
    ∀ c ∈ pad2Chars cs, timeChar c := by
  intro c hc
  unfold pad2Chars at hc
  split at hc
  · rcases List.mem_cons.mp hc with hc | hc
    · exact Or.inl ⟨0, by omega, by rw [hc]; rfl⟩
    · exact hcs c hc
  · exact hcs c hc

theorem timeChar_not_space {c : Char} (h : timeChar c) : isSpaceChar c = false := by
  rcases h with ⟨k, hk, rfl⟩ | rfl
  · revert hk; revert k; decide
  · decide

theorem timeChar_lower {c : Char} (h : timeChar c) : c.toLower = c := by
  rcases h with ⟨k, hk, rfl⟩ | rfl
  · revert hk; revert k; decide
  · decide

theorem digitChar_ne_colon {k : Nat} (hk : k < 10) : digitChar k ≠ ':' := by
  revert hk; revert k; decide

theorem dropWhile_eq_self_of_none {p : Char → Bool} :
    ∀ {cs : List Char}, (∀ c ∈ cs, p c = false) → cs.dropWhile p = cs := by
  intro cs h
  cases cs with
  | nil => rfl
  | cons c rest =>
    rw [List.dropWhile_cons_of_neg]
    simp [h c (List.mem_cons_self c rest)]

theorem trimChars_eq_self {cs : List Char}
    (h : ∀ c ∈ cs, isSpaceChar c = false) : trimChars cs = cs := by
  unfold trimChars
  rw [dropWhile_eq_self_of_none h]
  rw [dropWhile_eq_self_of_none (by intro c hc; exact h c (List.mem_reverse.mp hc))]
  exact List.reverse_reverse cs

theorem lowerChars_eq_self {cs : List Char}
    (h : ∀ c ∈ cs, c.toLower = c) : lowerChars cs = cs := by
  unfold lowerChars
  rw [List.map_congr_left h]
  exact List.map_id' cs

theorem splitChar_not_mem {sep : Char} :
    ∀ {cs : List Char}, sep ∉ cs → splitChar sep cs = [cs] := by
  intro cs
  induction cs with
  | nil => intro _; rfl
  | cons c rest ih =>
    intro h
    have hcne : ¬ c = sep := by
      intro hc; exact h (by rw [hc]; exact List.mem_cons_self _ _)
    have hrest : sep ∉ rest := fun hr => h (List.mem_cons_of_mem _ hr)
    simp only [splitChar, ih hrest, if_neg hcne]

theorem splitChar_append {sep : Char} :
    ∀ {xs : List Char} (ys : List Char), sep ∉ xs →
      splitChar sep (xs ++ sep :: ys) = xs :: splitChar sep ys := by
  intro xs
  induction xs with
  | nil =>
    intro ys _
    show splitChar sep (sep :: ys) = [] :: splitChar sep ys
    simp [splitChar]
  | cons x rest ih =>
    intro ys h
    have hxne : ¬ x = sep := by
      intro hc; exact h (by rw [hc]; exact List.mem_cons_self _ _)
    have hrest : sep ∉ rest := fun hr => h (List.mem_cons_of_mem _ hr)
    show splitChar sep (x :: (rest ++ sep :: ys)) = (x :: rest) :: splitChar sep ys
    simp only [splitChar, ih ys hrest, if_neg hxne]

/-- The parse-format round trip: `parseToSeconds` decodes a
`formatToTime` string back to the clamped seconds value. -/
theorem parseToSeconds_formatToTime (z : Int) :
    parseToSeconds (formatToTime z) = some z.toNat := by
  have hz : ((if z < 0 then 0 else z).toNat) = z.toNat := by
    split
    · omega
    · rfl
  set s := ((if z < 0 then 0 else z).toNat) with hs
  set A := natDigits (s / 3600) with hA
  set B := pad2Chars (natDigits (s % 3600 / 60)) with hB
  set C := pad2Chars (natDigits (s % 60)) with hC
  have hAgood : ∀ c ∈ A, timeChar c := fun c hc => timeChar_natDigits hc
  have hBgood : ∀ c ∈ B, timeChar c :=
    timeChar_pad2 (fun c hc => timeChar_natDigits hc)
  have hCgood : ∀ c ∈ C, timeChar c :=
    timeChar_pad2 (fun c hc => timeChar_natDigits hc)
  have hgood : ∀ c ∈ A ++ ':' :: (B ++ ':' :: C), timeChar c := by
    intro c hc
    rcases List.mem_append.mp hc with hc | hc
    · exact hAgood c hc
    · rcases List.mem_cons.mp hc with rfl | hc
      · exact Or.inr rfl
      · rcases List.mem_append.mp hc with hc | hc
        · exact hBgood c hc
        · rcases List.mem_cons.mp hc with rfl | hc
          · exact Or.inr rfl
          · exact hCgood c hc
  have htoList : (formatToTime z).toList = A ++ ':' :: (B ++ ':' :: C) := rfl
  have hnospace : (' ' : Char) ∉ A ++ ':' :: (B ++ ':' :: C) := by
    intro hsp
    have hbad := timeChar_not_space (hgood ' ' hsp)
    simp [isSpaceChar] at hbad
  have hAnc : (':' : Char) ∉ A := by
    intro hc
    rcases natDigitsGo_digits _ _ _ hc with ⟨k, hk, hck⟩
    exact digitChar_ne_colon hk hck.symm
  have hBnc : (':' : Char) ∉ B := by
    intro hc
    rcases digit_pad2_natDigits hc with ⟨k, hk, hck⟩
    exact digitChar_ne_colon hk hck.symm
  have hCnc : (':' : Char) ∉ C := by
    intro hc
    rcases digit_pad2_natDigits hc with ⟨k, hk, hck⟩
    exact digitChar_ne_colon hk hck.symm
  show parseClockParts (splitChar ' ' (lowerChars (trimChars (formatToTime z).toList)))
    = some z.toNat
  rw [htoList,
    trimChars_eq_self (fun c hc => timeChar_not_space (hgood c hc)),
    lowerChars_eq_self (fun c hc => timeChar_lower (hgood c hc)),
    splitChar_not_mem hnospace]
  show parseClockParts [A ++ ':' :: (B ++ ':' :: C)] = some z.toNat
  unfold parseClockParts
  simp only [List.headD]
  rw [splitChar_append _ hAnc, splitChar_append _ hBnc, splitChar_not_mem hCnc]
  simp only [List.map_cons, List.map_nil]
  rw [hA, hB, hC, natOfChars_natDigits, natOfChars_pad2 (natDigits_ne_nil _),
    natOfChars_pad2 (natDigits_ne_nil _), natOfChars_natDigits,
    natOfChars_natDigits]
  show some (applyModifier none (s / 3600) * 3600 + s % 3600 / 60 * 60 + s % 60)
    = some z.toNat
  have hmodif : applyModifier none (s / 3600) = s / 3600 := by
    unfold applyModifier
    simp
  rw [hmodif]
  simp only [Option.some.injEq]
  omega


/-! ## The record store (functions 5-8)

A shift file is a list of lines, each line the list of its
comma-separated fields; `none` for the whole file means the file is
absent on disk. -/

/-- One line of the shift file, as the list of its comma-separated
fields. -/
abbrev Line := List String

/-- The shift (or rate) file: `none` when absent. -/
abbrev FileData := Option (List Line)

/-- The argument object of `addShiftRecord`. -/
structure ShiftObj where
  driverID : String
  driverName : String
  date : String
  startTime : String
  endTime : String
deriving DecidableEq, Repr

/-- An in-memory record inside `addShiftRecord`.  JavaScript object
properties that were never assigned read as `undefined`, modelled by
`none`: the source parses only the first five fields of each
pre-existing line into such an object. -/
structure RawShift where
  driverID : Option String
  driverName : Option String
  date : Option String
  startTime : Option String
  endTime : Option String
  shiftDuration : Option String
  idleTime : Option String
  activeTime : Option String
  metQuota : Option Bool
  hasBonus : Option Bool
deriving DecidableEq, Repr

/-- The 5-field read-back of an existing line performed by
`addShiftRecord` (`parts[0] .. parts[4]`; a missing part is
`undefined`). -/
def readRaw (parts : Line) : RawShift :=
  { driverID := parts.get? 0
    driverName := parts.get? 1
    date := parts.get? 2
    startTime := parts.get? 3
    endTime := parts.get? 4
    shiftDuration := none
    idleTime := none
    activeTime := none
    metQuota := none
    hasBonus := none }

/-- Rendering of a possibly-undefined string property inside a template
literal: `undefined` prints as the string `"undefined"`. -/
def showField (f : Option String) : String :=
  match f with
  | some s => s
  | none => "undefined"

/-- Rendering of a possibly-undefined boolean property inside a template
literal. -/
def showBool (b : Option Bool) : String :=
  match b with
  | some true => "true"
  | some false => "false"
  | none => "undefined"

/-- The 10-field template literal `addShiftRecord` writes for every
record (line 211 of the source). -/
def serializeRecord (r : RawShift) : Line :=
  [showField r.driverID, showField r.driverName, showField r.date,
    showField r.startTime, showField r.endTime, showField r.shiftDuration,
    showField r.idleTime, showField r.activeTime, showBool r.metQuota,
    showBool r.hasBonus]

/-- Sort key of a record: the epoch order of `new Date(r.date)`
(monotone encoding); `none` for an invalid or undefined date, whose
comparator result is `NaN`. -/
def sortKey (r : RawShift) : Option Nat :=
  (r.date.bind parseDate).map (fun p => dateIndex p.1 p.2.1 p.2.2)

/-- The comparator `(a, b) => new Date(a.date) - new Date(b.date)` as a
`le` relation for a stable sort (JavaScript `Array.prototype.sort` is
stable; a `NaN` comparator result is treated like `0`, i.e. "do not
swap").  The embedding uses the stable, structurally recursive
`List.insertionSort`, which agrees with any stable sort for this
comparator. -/
def dateLe (a b : RawShift) : Prop :=
  match sortKey a, sortKey b with
  | some x, some y => x ≤ y
  | _, _ => True

instance : DecidableRel dateLe := fun a b => by
  unfold dateLe
  split
  · exact Nat.decLe _ _
  · exact inferInstanceAs (Decidable True)

/-- The duplicate test of `addShiftRecord`: some existing record has the
same `(driverID, date)` pair. -/
def isDup (records : List RawShift) (obj : ShiftObj) : Bool :=
  records.any (fun r =>
    r.driverID == some obj.driverID && r.date == some obj.date)

/-- The freshly built record of `addShiftRecord` (lines 191-202). -/
def newRecordOf (obj : ShiftObj) (sd it at_ : String) (mq : Bool) : RawShift :=
  { driverID := some obj.driverID
    driverName := some obj.driverName
    date := some obj.date
    startTime := some obj.startTime
    endTime := some obj.endTime
    shiftDuration := some sd
    idleTime := some it
    activeTime := some at_
    metQuota := some mq
    hasBonus := some false }

/-- `addShiftRecord(textFile, shiftObj)` (function 5).  Returns the new
file state and the function result (`none` = the empty object `{}` on a
duplicate).  An absent file is first created empty (`file.getD []`).
The outer `Option` is the unmodelled NaN-garbage path taken when the
times of `shiftObj` do not parse (the source would then write garbage
strings).  Note the source re-serializes the *5-field* read-back of
every pre-existing line through the 10-field template, so fields 6-10
of pre-existing records are rewritten as `"undefined"`. -/
def addShiftRecord (file : FileData) (obj : ShiftObj) :
    Option (FileData × Option RawShift) :=
  let lines := file.getD []
  let records := lines.map readRaw
  if isDup records obj then some (some lines, none)
  else
    match getShiftDuration obj.startTime obj.endTime,
        getIdleTime obj.startTime obj.endTime with
    | some sd, some it =>
      (match getActiveTime sd it with
       | some at_ =>
         (match metQuota obj.date at_ with
          | some mq =>
            let newRec := newRecordOf obj sd it at_ mq
            let sorted := (records ++ [newRec]).insertionSort dateLe
            some (some (sorted.map serializeRecord), some newRec)
          | none => none)
       | none => none)
    | _, _ => none

/-- The loop body of `countBonusPerMonth`: the state is
`(driverExists, bonusCount)`.  Lines of fewer than 10 fields are
skipped; a line that is not the driver's or whose `hasBonus` field is
not literally `"true"` is skipped before `driverExists` is set. -/
def countBonusStep (driverID : String) (month : Nat) (st : Bool × Nat)
    (parts : Line) : Bool × Nat :=
  if parts.length < 10 then st
  else if parts.get? 0 ≠ some driverID ∨ parts.get? 9 ≠ some "true" then st
  else if monthOf ((parts.get? 2).getD "") = some month then (true, st.2 + 1)
  else (true, st.2)

/-- `countBonusPerMonth(textFile, driverID, month)` (function 7).
`driverExists` is set only on lines whose `hasBonus` field is literally
`"true"`, so a driver with no bonus-flagged line anywhere yields `-1`. -/
def countBonusPerMonth (file : FileData) (driverID : String) (month : Nat) :
    Int :=
  match file with
  | none => -1
  | some lines =>
    let st := lines.foldl (countBonusStep driverID month) (false, 0)
    if st.1 then (st.2 : Int) else -1

/-- The per-line accumulation of `getTotalActiveHoursPerMonth`: lines of
fewer than 10 fields and other drivers' lines are skipped; a matching
line's `activeTime` field is decoded and added (`none` propagates the
NaN that a malformed field would inject into the total). -/
def sumActiveSeconds (driverID : String) (month : Nat) : List Line → Option Nat
  | [] => some 0
  | parts :: rest =>
    if parts.length < 10 then sumActiveSeconds driverID month rest
    else if parts.get? 0 ≠ some driverID then sumActiveSeconds driverID month rest
    else if monthOf ((parts.get? 2).getD "") = some month then
      match parseToSeconds ((parts.get? 7).getD ""), sumActiveSeconds driverID month rest with
      | some t, some r => some (t + r)
      | _, _ => none
    else sumActiveSeconds driverID month rest

/-- `getTotalActiveHoursPerMonth(textFile, driverID, month)` (function 8).
The source checks `fs.existsSync` but *discards* the `formatToTime(0)`
value (the `return` keyword is missing), so on an absent file
`readLines` raises `ENOENT`; that raised error is the `none` result
here. -/
def getTotalActiveHoursPerMonth (file : FileData) (driverID : String)
    (month : Nat) : Option String :=
  match file with
  | none => none
  | some lines =>
    (sumActiveSeconds driverID month lines).map (fun t => formatToTime (t : Int))

/-! ## Required hours (function 9) and net pay (function 10) -/

/-- `getDayOff(rateFile, driverID)`: the day-off field of the first rate
line whose first field is the driver, trimmed and lower-cased; `""` when
the driver is absent.  `none` models the `TypeError` raised when the
matching line has no second field. -/
def getDayOff (rateLines : List Line) (driverID : String) : Option String :=
  match rateLines with
  | [] => some ""
  | parts :: rest =>
    if parts.get? 0 = some driverID then
      (parts.get? 1).map (fun s => String.mk (lowerChars (trimChars s.toList)))
    else getDayOff rest driverID

/-- Whether a line is a well-formed (10-field) record of the driver
whose date lies in the target month, and that date: the selection
performed by `getUniqueDates`. -/
def lineDateInMonth (driverID : String) (targetMonth : Nat) (parts : Line) :
    Option String :=
  if parts.length < 10 then none
  else if parts.get? 0 ≠ some driverID then none
  else if monthOf ((parts.get? 2).getD "") = some targetMonth then
    some ((parts.get? 2).getD "")
  else none

/-- The loop body of `getUniqueDates`: a JavaScript `Set` keeps the
first insertion of each date. -/
def uniqueDatesStep (driverID : String) (targetMonth : Nat)
    (acc : List String) (parts : Line) : List String :=
  match lineDateInMonth driverID targetMonth parts with
  | some rdate => if rdate ∈ acc then acc else acc ++ [rdate]
  | none => acc

/-- `getUniqueDates(textFile, targetMonth, driverID)`: the insertion-order
set of the driver's record dates lying in the target month. -/
def getUniqueDates (shiftLines : List Line) (targetMonth : Nat)
    (driverID : String) : List String :=
  shiftLines.foldl (uniqueDatesStep driverID targetMonth) []

/-- The seconds one distinct date contributes inside
`getTotalRequiredSeconds`: zero on the day-off weekday, else the Eid or
normal daily minimum.  An invalid date never matches the day-off
(`getUTCDay()` is `NaN`) and is never inside the Eid window, so it
contributes the normal minimum. -/
def dailyRequirement (dayOffNum : Int) (dateStr : String) : Nat :=
  match parseDate dateStr with
  | none => MINIMUM_NORMAL
  | some (y, m, d) =>
    if (dayOfWeek y m d : Int) = dayOffNum then 0
    else if isEidYMD y m d then MINIMUM_EID
    else MINIMUM_NORMAL

/-- `getTotalRequiredSeconds(uniqueDates, dayOffNum)`: per distinct date,
skip the day-off weekday, else add the Eid or normal daily minimum. -/
def getTotalRequiredSeconds (uniqueDates : List String) (dayOffNum : Int) :
    Nat :=
  uniqueDates.foldl (fun acc dateStr => acc + dailyRequirement dayOffNum dateStr) 0

/-- `DAYS[dayOffStr] !== undefined ? DAYS[dayOffStr] : -1`: the day-off
weekday number, `-1` when the name is unknown (or the driver absent,
whose day-off string is `""`). -/
def dayOffNumOf (o : Option Nat) : Int :=
  match o with
  | some n => (n : Int)
  | none => -1

/-- `getRequiredHoursPerMonth(textFile, rateFile, bonusCount, driverID, month)`
(function 9).  `none` models the exception path of `getDayOff`.
`Number(bonusCount)` with its `isNaN` fallback is the identity on the
integer `bonusCount` of the embedding. -/
def getRequiredHoursPerMonth (shiftFile rateFile : FileData) (bonusCount : Int)
    (driverID : String) (month : Nat) : Option String :=
  match shiftFile, rateFile with
  | some shiftLines, some rateLines =>
    (getDayOff rateLines driverID).map (fun dayOffStr =>
      let dayOffNum : Int := dayOffNumOf (DAYS dayOffStr)
      let uniq := getUniqueDates shiftLines month driverID
      let total : Int := (getTotalRequiredSeconds uniq dayOffNum : Int)
      let total := total - bonusCount * 2 * 3600
      let total := if total < 0 then 0 else total
      formatToTime total)
  | _, _ => some (formatToTime 0)

/-- Rate-table lookup for the pay calculator: `basePay` and `tier` of
the first line whose first field is the driver. -/
def lookupRate (rateLines : List Line) (driverID : String) :
    Option (Nat × Nat) :=
  match rateLines with
  | [] => none
  | parts :: rest =>
    if parts.get? 0 = some driverID then
      match (parts.get? 2).bind strToNat, (parts.get? 3).bind strToNat with
      | some basePay, some tier => some (basePay, tier)
      | _, _ => none
    else lookupRate rest driverID

/-- The tier allowance table: whole missing hours tolerated with zero
deduction. -/
def allowanceForTier (tier : Nat) : Nat :=
  if tier = 1 then 50
  else if tier = 2 then 20
  else if tier = 3 then 10
  else 3

/-- Modelled from the spec: `getNetPay` (function 10) is an empty stub in
the source (both `src/unnamed/part_000` line 425 and `src/main.js` line
295 have no body), so the pay calculator is modelled from spec section
4.7: look up `basePay` and `tier`, compute
`missingHours = max(0, requiredHours - actualHours)` in whole hours
(the spec leaves fractional-hour rounding open; whole hours are floored
here and the theorems only exercise whole-hour inputs), take the tier
allowance, deduct `floor(basePay / 185)` per deductible missing hour and
clamp the result at zero. -/
def getNetPay (driverID : String) (actualHours requiredHours : String)
    (rateLines : List Line) : Option Int :=
  match lookupRate rateLines driverID with
  | none => none
  | some (basePay, tier) =>
    match parseToSeconds actualHours, parseToSeconds requiredHours with
    | some act, some req =>
      let missingHours := (req - act) / 3600
      let deductible := missingHours - allowanceForTier tier
      let ratePerHour := basePay / 185
      let net : Int := (basePay : Int) - (deductible : Int) * (ratePerHour : Int)
      some (max 0 net)
    | _, _ => none

/-! # Claim theorems -/

/-! ## Numeric values of the configuration constants -/

theorem DAY_SECONDS_eq : DAY_SECONDS = 86400 := rfl

theorem HOURS_START_eq : HOURS_START = 28800 := rfl

theorem HOURS_END_eq : HOURS_END = 79200 := rfl

theorem MINIMUM_NORMAL_eq : MINIMUM_NORMAL = 30240 := rfl

theorem MINIMUM_EID_eq : MINIMUM_EID = 21600 := rfl

/-! ## Behaviour of the idle-time loop on one-day and two-day intervals -/

/-- Terminal case of the idle loop. -/
theorem idleLoop_done {endSeconds cur : Nat} (h : ¬ cur < endSeconds) :
    idleLoop endSeconds cur = 0 := by
  rw [idleLoop_eq]
  simp [h]

/-- One unfolding of the idle loop for a cursor inside day 0: the
delivery window of that day is `[28800, 79200)`. -/
theorem idleLoop_day0 {a b : Nat} (hab : a < b) (ha : a < 86400) :
    idleLoop b a =
      (if a < 28800 then min (min b 86400) 28800 - a else 0) +
        ((if 79200 < min b 86400 then min b 86400 - max a 79200 else 0) +
          idleLoop b (min b 86400)) := by
  rw [idleLoop_eq]
  have hd : a / 86400 = 0 := Nat.div_eq_of_lt (by omega)
  rw [if_pos hab]
  simp only [DAY_SECONDS_eq, HOURS_START_eq, HOURS_END_eq, hd, Nat.zero_mul,
    Nat.zero_add]

/-- One unfolding of the idle loop for a cursor inside day 1 (after a
midnight wrap): the delivery window of that day is
`[115200, 165600)`. -/
theorem idleLoop_day1 {a b : Nat} (hab : a < b) (ha1 : 86400 ≤ a)
    (ha2 : a < 172800) :
    idleLoop b a =
      (if a < 115200 then min (min b 172800) 115200 - a else 0) +
        ((if 165600 < min b 172800 then min b 172800 - max a 165600 else 0) +
          idleLoop b (min b 172800)) := by
  rw [idleLoop_eq]
  have hd : a / 86400 = 1 := by omega
  rw [if_pos hab]
  simp only [DAY_SECONDS_eq, HOURS_START_eq, HOURS_END_eq, hd, Nat.one_mul]

/-- A shift segment lying inside the day-0 delivery window accumulates
no idle time. -/
theorem idleLoop_zero_of_inside {a b : Nat} (h1 : 28800 ≤ a) (h2 : b ≤ 79200) :
    idleLoop b a = 0 := by
  by_cases hab : a < b
  · have hmin : min b 86400 = b := by omega
    rw [idleLoop_day0 hab (by omega), hmin, idleLoop_done (by omega),
      if_neg (by omega), if_neg (by omega)]
  · exact idleLoop_done hab

/-- A shift lying entirely before the day-0 delivery window is all
idle. -/
theorem idleLoop_full_of_before {a b : Nat} (hab : a ≤ b) (h2 : b ≤ 28800) :
    idleLoop b a = b - a := by
  rcases Nat.lt_or_ge a b with hlt | hge
  · have hmin : min b 86400 = b := by omega
    rw [idleLoop_day0 hlt (by omega), hmin, idleLoop_done (by omega)]
    split_ifs <;> omega
  · have hab2 : a = b := by omega
    rw [hab2, idleLoop_done (by omega)]
    omega

/-- A shift lying after the day-0 delivery window and (after an optional
midnight wrap) before the day-1 delivery window is all idle. -/
theorem idleLoop_full_of_evening {a b : Nat} (h1 : 79200 ≤ a) (ha : a < 86400)
    (hab : a ≤ b) (h2 : b ≤ 115200) :
    idleLoop b a = b - a := by
  rcases Nat.lt_or_ge a b with hlt | hge
  · by_cases hb : b ≤ 86400
    · have hmin : min b 86400 = b := by omega
      rw [idleLoop_day0 hlt ha, hmin, idleLoop_done (by omega)]
      split_ifs <;> omega
    · have hmin : min b 86400 = 86400 := by omega
      rw [idleLoop_day0 hlt ha, hmin]
      have h86 : (86400 : Nat) < b := by omega
      rw [idleLoop_day1 h86 (by omega) (by omega)]
      have hmin2 : min b 172800 = b := by omega
      rw [hmin2, idleLoop_done (by omega)]
      split_ifs <;> omega
  · have hab2 : a = b := by omega
    rw [hab2, idleLoop_done (by omega)]
    omega

/-- A same-day shift starting before the window and ending after it
accumulates exactly the two tails. -/
theorem idleLoop_two_tails {a b : Nat} (h1 : a ≤ 28800) (h2 : 79200 ≤ b)
    (hb : b ≤ 86400) :
    idleLoop b a = (28800 - a) + (b - 79200) := by
  have hlt : a < b := by omega
  have hmin : min b 86400 = b := by omega
  rw [idleLoop_day0 hlt (by omega), hmin, idleLoop_done (by omega)]
  split_ifs <;> omega

/-- The start of a shift never exceeds the wrap-adjusted end, provided
the start is a second-of-day value. -/
theorem le_wrapEnd {a b : Nat} (ha : a < 86400) : a ≤ wrapEnd a b := by
  simp only [wrapEnd, DAY_SECONDS_eq]
  split <;> omega

/-- Claim C7: a shift whose wrap-adjusted interval lies entirely inside
the daily delivery window `[8:00, 22:00)` has zero idle time; a shift
lying entirely outside the window (before 8:00, or in the evening gap
from 22:00 up to 8:00 of the next day) has idle time equal to the full
shift duration; and a same-day shift starting before 8:00 and ending
after 22:00 gets the sum of the two tails. -/
theorem getIdleTime_window_spec :
    (∀ s t a b, parseToSeconds s = some a → parseToSeconds t = some b →
      HOURS_START ≤ a → wrapEnd a b ≤ HOURS_END →
      getIdleTime s t = some "0:00:00")
    ∧ (∀ s t a b, parseToSeconds s = some a → parseToSeconds t = some b →
      a < DAY_SECONDS →
      (wrapEnd a b ≤ HOURS_START ∨
        (HOURS_END ≤ a ∧ wrapEnd a b ≤ DAY_SECONDS + HOURS_START)) →
      getIdleTime s t = getShiftDuration s t)
    ∧ (∀ s t a b, parseToSeconds s = some a → parseToSeconds t = some b →
      a ≤ HOURS_START → HOURS_END ≤ b → b < DAY_SECONDS →
      getIdleTime s t =
        some (formatToTime (((HOURS_START - a) + (b - HOURS_END) : Nat) : Int))) := by
  refine ⟨?_, ?_, ?_⟩
  · intro s t a b hs ht h1 h2
    rw [HOURS_START_eq] at h1
    rw [HOURS_END_eq] at h2
    simp only [getIdleTime, hs, ht]
    rw [idleLoop_zero_of_inside h1 h2]
    rfl
  · intro s t a b hs ht ha hcase
    rw [DAY_SECONDS_eq] at ha
    have hae : a ≤ wrapEnd a b := le_wrapEnd ha
    simp only [getIdleTime, getShiftDuration, hs, ht]
    have hloop : idleLoop (wrapEnd a b) a = wrapEnd a b - a := by
      rcases hcase with h | ⟨h1, h2⟩
      · rw [HOURS_START_eq] at h
        exact idleLoop_full_of_before hae h
      · rw [HOURS_END_eq] at h1
        rw [DAY_SECONDS_eq, HOURS_START_eq] at h2
        exact idleLoop_full_of_evening h1 ha hae h2
    rw [hloop]
    have hcast : ((wrapEnd a b - a : Nat) : Int) = (wrapEnd a b : Int) - (a : Int) :=
      Nat.cast_sub hae
    rw [hcast]
  · intro s t a b hs ht h1 h2 hb
    rw [HOURS_START_eq] at h1
    rw [HOURS_END_eq] at h2
    rw [DAY_SECONDS_eq] at hb
    have hwrap : wrapEnd a b = b := by
      simp only [wrapEnd]
      rw [if_neg (by omega)]
    simp only [getIdleTime, hs, ht, hwrap]
    rw [idleLoop_two_tails h1 h2 (by omega)]
    rw [HOURS_START_eq, HOURS_END_eq]

/-- Witness for C7: a fully-inside shift, a fully-outside overnight
shift, and a both-tails shift, at concrete clock strings. -/
theorem getIdleTime_window_spec_witness :
    getIdleTime "9:00:00 am" "5:00:00 pm" = some "0:00:00" ∧
      getIdleTime "11:00:00 pm" "2:00:00 am" =
        getShiftDuration "11:00:00 pm" "2:00:00 am" ∧
      getIdleTime "6:00:00 am" "11:00:00 pm" =
        some (formatToTime (((HOURS_START - 21600) + (82800 - HOURS_END) : Nat) : Int)) :=
  ⟨getIdleTime_window_spec.1 "9:00:00 am" "5:00:00 pm" 32400 61200
      (by decide) (by decide) (by decide) (by decide),
    getIdleTime_window_spec.2.1 "11:00:00 pm" "2:00:00 am" 82800 7200
      (by decide) (by decide) (by decide)
      (Or.inr ⟨by decide, by decide⟩),
    getIdleTime_window_spec.2.2 "6:00:00 am" "11:00:00 pm" 21600 82800
      (by decide) (by decide) (by decide) (by decide) (by decide)⟩

/-- Claim C10: for every pair of clock strings that parse to the same
seconds-of-day value, `getShiftDuration` and `getIdleTime` both return
`"0:00:00"`: the zero-length interval is treated as empty, not wrapped
to a 24-hour shift. -/
theorem zero_length_shift (s t : String) (v : Nat)
    (hs : parseToSeconds s = some v) (ht : parseToSeconds t = some v) :
    getShiftDuration s t = some "0:00:00" ∧
      getIdleTime s t = some "0:00:00" := by
  have hwrap : wrapEnd v v = v := by
    unfold wrapEnd
    simp
  have hloop : idleLoop v v = 0 := by
    unfold idleLoop
    rw [Nat.sub_self]
    rfl
  constructor
  · simp only [getShiftDuration, hs, ht, hwrap]
    have hzero : ((v : Int) - (v : Int)) = 0 := by omega
    rw [hzero]
    rfl
  · simp only [getIdleTime, hs, ht, hwrap, hloop]
    rfl

/-- Witness for C10 at two concrete spellings of 8:00. -/
theorem zero_length_shift_witness :
    getShiftDuration "8:00:00 am" "8:00:00" = some "0:00:00" ∧
      getIdleTime "8:00:00 am" "8:00:00" = some "0:00:00" :=
  zero_length_shift "8:00:00 am" "8:00:00" 28800 (by decide) (by decide)

/-- Claim C6: `metQuota` returns `true` iff the decoded seconds of
`activeTime` meet or exceed the applicable threshold; the threshold is
the reduced holiday minimum (6h) for dates inside the fixed
2025-04-10 .. 2025-04-30 window, inclusive on both ends, and the
ordinary minimum (8h24m) otherwise; including the spec's two
examples. -/
theorem metQuota_threshold_spec :
    (∀ date t v, parseToSeconds t = some v →
      (metQuota date t = some true ↔
        (if isEidDate date then MINIMUM_EID else MINIMUM_NORMAL) ≤ v))
    ∧ (∀ date y m d, parseDate date = some (y, m, d) →
      (isEidDate date = true ↔
        (dateIndex 2025 4 10 ≤ dateIndex y m d ∧
          dateIndex y m d ≤ dateIndex 2025 4 30)))
    ∧ metQuota "2025-04-15" "6:30:00" = some true
    ∧ metQuota "2025-05-15" "6:30:00" = some false := by
  refine ⟨?_, ?_, by decide, by decide⟩
  · intro date t v hv
    unfold metQuota
    rw [hv]
    simp [ge_iff_le]
  · intro date y m d hd
    unfold isEidDate
    rw [hd]
    unfold isEidYMD
    simp [decide_eq_true_iff]

/-- Witness for C6 at the inclusive upper end of the holiday window. -/
theorem metQuota_threshold_spec_witness :
    metQuota "2025-04-30" "6:00:00" = some true :=
  (metQuota_threshold_spec.1 "2025-04-30" "6:00:00" 21600 (by decide)).mpr
    (by decide)

/-- Claim C3 (code bug in the source): with the shift file absent,
`getTotalActiveHoursPerMonth` does not return the zero duration.  The
`return` keyword before `formatToTime(0)` on the `existsSync` check is
missing (source line 301), so the value is discarded and the
unconditional `readLines` that follows raises `ENOENT` — the `none`
result of the embedding — where the claim (and the spec) promise
`"0:00:00"`. -/
theorem getTotalActiveHours_absent_file_raises :
    getTotalActiveHoursPerMonth none "D1" 4 = none ∧
      getTotalActiveHoursPerMonth none "D1" 4 ≠ some "0:00:00" := by
  exact ⟨rfl, by decide⟩

/-- Claim C5 (pay calculator modelled from the spec; `getNetPay` is an
unimplemented stub in the source): net pay is `basePay` minus
`max(0, missingHours - allowance) * floor(basePay / 185)` clamped at
zero, with `missingHours = max(0, requiredHours - actualHours)` in
whole hours and the allowance 50/20/10/3 for tiers 1/2/3/4; and the
spec's example (basePay 18500, tier 2, 25 missing hours) yields
18000. -/
theorem getNetPay_spec (rateLines : List Line)
    (driverID actual required : String) (a r basePay tier : Nat)
    (hrate : lookupRate rateLines driverID = some (basePay, tier))
    (ha : parseToSeconds actual = some (a * 3600))
    (hr : parseToSeconds required = some (r * 3600)) :
    (getNetPay driverID actual required rateLines =
      some (max 0 ((basePay : Int) -
        max 0 (max 0 ((r : Int) - (a : Int)) - (allowanceForTier tier : Int)) *
          ((basePay / 185 : Nat) : Int))))
    ∧ allowanceForTier 1 = 50 ∧ allowanceForTier 2 = 20 ∧
      allowanceForTier 3 = 10 ∧ allowanceForTier 4 = 3
    ∧ getNetPay "D7" "0:00:00" "25:00:00" [["D7", "monday", "18500", "2"]] =
        some 18000 := by
  refine ⟨?_, rfl, rfl, rfl, rfl, by decide⟩
  unfold getNetPay
  rw [hrate, ha, hr]
  simp only [Option.some.injEq]
  have hdiv : (r * 3600 - a * 3600) / 3600 = r - a := by omega
  rw [hdiv]
  congr 1
  have hfac : (((r - a) - allowanceForTier tier : Nat) : Int) =
      max 0 (max 0 ((r : Int) - (a : Int)) - (allowanceForTier tier : Int)) := by
    omega
  rw [hfac]

/-- Witness for C5 at the spec's example. -/
theorem getNetPay_spec_witness :
    getNetPay "D7" "0:00:00" "25:00:00" [["D7", "monday", "18500", "2"]] =
      some 18000 := by
  have h := (getNetPay_spec [["D7", "monday", "18500", "2"]] "D7" "0:00:00"
    "25:00:00" 0 25 18500 2 (by decide) (by decide) (by decide)).1
  rw [h]
  decide

/-! ## Inversion of the derived-field computation (claim C9) -/

/-- A successful `getShiftDuration` means both times parsed, and the
result is the formatted wrap-adjusted difference. -/
theorem getShiftDuration_inv {s t sd : String}
    (h : getShiftDuration s t = some sd) :
    ∃ a b, parseToSeconds s = some a ∧ parseToSeconds t = some b ∧
      sd = formatToTime ((wrapEnd a b : Int) - (a : Int)) := by
  unfold getShiftDuration at h
  split at h
  · rename_i a b ha hb
    exact ⟨a, b, ha, hb, (Option.some.inj h).symm⟩
  · exact absurd h (by simp)

/-- A successful `getIdleTime` means both times parsed, and the result
is the formatted loop total. -/
theorem getIdleTime_inv {s t it : String}
    (h : getIdleTime s t = some it) :
    ∃ a b, parseToSeconds s = some a ∧ parseToSeconds t = some b ∧
      it = formatToTime ((idleLoop (wrapEnd a b) a : Nat) : Int) := by
  unfold getIdleTime at h
  split at h
  · rename_i a b ha hb
    exact ⟨a, b, ha, hb, (Option.some.inj h).symm⟩
  · exact absurd h (by simp)

/-- A successful `getActiveTime` means both durations parsed, and the
result is the formatted clamped difference. -/
theorem getActiveTime_inv {sd it at_ : String}
    (h : getActiveTime sd it = some at_) :
    ∃ d i, parseToSeconds sd = some d ∧ parseToSeconds it = some i ∧
      at_ = formatToTime ((d : Int) - (i : Int)) := by
  unfold getActiveTime at h
  split at h
  · rename_i d i hd hi
    exact ⟨d, i, hd, hi, (Option.some.inj h).symm⟩
  · exact absurd h (by simp)

/-- Claim C9: every record produced by a successful append satisfies the
derived-field invariants: its stored `shiftDuration`, `idleTime` and
`activeTime` strings decode to the wrap-adjusted duration, the loop's
idle seconds, and their difference clamped at zero, and its `metQuota`
field equals the pure function `metQuota` applied to the record's own
`date` and `activeTime`. -/
theorem addShiftRecord_invariant (file : List Line) (obj : ShiftObj)
    (st : FileData) (rec : RawShift)
    (h : addShiftRecord (some file) obj = some (st, some rec)) :
    ∃ a b sd it at_,
      parseToSeconds obj.startTime = some a ∧
      parseToSeconds obj.endTime = some b ∧
      rec.date = some obj.date ∧
      rec.shiftDuration = some sd ∧
      rec.idleTime = some it ∧
      rec.activeTime = some at_ ∧
      parseToSeconds sd = some (wrapEnd a b - a) ∧
      parseToSeconds it = some (idleLoop (wrapEnd a b) a) ∧
      parseToSeconds at_ = some ((wrapEnd a b - a) - idleLoop (wrapEnd a b) a) ∧
      metQuota obj.date at_ = rec.metQuota := by
  unfold addShiftRecord at h
  simp only [Option.getD_some] at h
  by_cases hdup : isDup (List.map readRaw file) obj = true
  · rw [if_pos hdup] at h
    exact absurd (congrArg Prod.snd (Option.some.inj h)) (by simp)
  · rw [if_neg hdup] at h
    split at h
    · rename_i sd it hsd hit
      split at h
      · rename_i at_ hat
        split at h
        · rename_i mq hmq
          have hrec : rec = newRecordOf obj sd it at_ mq := by
            have := Option.some.inj h
            have h2 := congrArg Prod.snd this
            exact (Option.some.inj h2).symm
          rcases getShiftDuration_inv hsd with ⟨a, b, ha, hb, hsdval⟩
          rcases getIdleTime_inv hit with ⟨a', b', ha', hb', hitval⟩
          rcases getActiveTime_inv hat with ⟨d, i, hd, hi, hatval⟩
          obtain rfl : a = a' := by
            rw [ha] at ha'
            exact Option.some.inj ha'
          obtain rfl : b = b' := by
            rw [hb] at hb'
            exact Option.some.inj hb' 
          refine ⟨a, b, sd, it, at_, ha, hb, ?_, ?_, ?_, ?_, ?_, ?_, ?_, ?_⟩
          · rw [hrec]; rfl
          · rw [hrec]; rfl
          · rw [hrec]; rfl
          · rw [hrec]; rfl
          · rw [hsdval, parseToSeconds_formatToTime]
            congr 1
            omega
          · rw [hitval, parseToSeconds_formatToTime]
            exact congrArg some (by omega)
          · rw [hatval, parseToSeconds_formatToTime]
            have hdv : d = wrapEnd a b - a := by
              rw [hsdval, parseToSeconds_formatToTime] at hd
              have := Option.some.inj hd
              omega
            have hiv : i = idleLoop (wrapEnd a b) a := by
              rw [hitval, parseToSeconds_formatToTime] at hi
              have := Option.some.inj hi
              omega
            subst hdv
            subst hiv
            congr 1
            omega
          · rw [hrec, hmq]
            rfl
        · exact absurd h (by simp)
      · exact absurd h (by simp)
    · exact absurd h (by simp)

/-- Witness for C9: the append of a fresh 9:00-17:00 record into an
empty store. -/
theorem addShiftRecord_invariant_witness :
    ∃ a b sd it at_,
      parseToSeconds "9:00:00 am" = some a ∧
      parseToSeconds "5:00:00 pm" = some b ∧
      (newRecordOf
        { driverID := "D2", driverName := "Bob", date := "2025-03-02",
          startTime := "9:00:00 am", endTime := "5:00:00 pm" }
        "8:00:00" "0:00:00" "8:00:00" false).date = some "2025-03-02" ∧
      (newRecordOf
        { driverID := "D2", driverName := "Bob", date := "2025-03-02",
          startTime := "9:00:00 am", endTime := "5:00:00 pm" }
        "8:00:00" "0:00:00" "8:00:00" false).shiftDuration = some sd ∧
      (newRecordOf
        { driverID := "D2", driverName := "Bob", date := "2025-03-02",
          startTime := "9:00:00 am", endTime := "5:00:00 pm" }
        "8:00:00" "0:00:00" "8:00:00" false).idleTime = some it ∧
      (newRecordOf
        { driverID := "D2", driverName := "Bob", date := "2025-03-02",
          startTime := "9:00:00 am", endTime := "5:00:00 pm" }
        "8:00:00" "0:00:00" "8:00:00" false).activeTime = some at_ ∧
      parseToSeconds sd = some (wrapEnd a b - a) ∧
      parseToSeconds it = some (idleLoop (wrapEnd a b) a) ∧
      parseToSeconds at_ = some ((wrapEnd a b - a) - idleLoop (wrapEnd a b) a) ∧
      metQuota "2025-03-02" at_ =
        (newRecordOf
          { driverID := "D2", driverName := "Bob", date := "2025-03-02",
            startTime := "9:00:00 am", endTime := "5:00:00 pm" }
          "8:00:00" "0:00:00" "8:00:00" false).metQuota :=
  addShiftRecord_invariant []
    { driverID := "D2", driverName := "Bob", date := "2025-03-02",
      startTime := "9:00:00 am", endTime := "5:00:00 pm" }
    (some [["D2", "Bob", "2025-03-02", "9:00:00 am", "5:00:00 pm",
      "8:00:00", "0:00:00", "8:00:00", "false", "false"]])
    (newRecordOf
      { driverID := "D2", driverName := "Bob", date := "2025-03-02",
        startTime := "9:00:00 am", endTime := "5:00:00 pm" }
      "8:00:00" "0:00:00" "8:00:00" false)
    (by decide)

/-! ## Bonus counting (claim C2) -/

/-- A well-formed (10-field) line of the driver whose `hasBonus` field
is literally `"true"`: exactly the lines on which `countBonusPerMonth`
sets `driverExists`. -/
def isBonusLine (driverID : String) (parts : Line) : Bool :=
  decide (10 ≤ parts.length) && decide (parts.get? 0 = some driverID) &&
    decide (parts.get? 9 = some "true")

/-- A bonus-flagged line of the driver dated in the target month:
exactly the lines `countBonusPerMonth` counts. -/
def isBonusLineInMonth (driverID : String) (month : Nat) (parts : Line) : Bool :=
  isBonusLine driverID parts &&
    decide (monthOf ((parts.get? 2).getD "") = some month)

/-- The fold of `countBonusPerMonth` computes `driverExists` as "some
bonus line of the driver exists" and the count as the number of the
driver's bonus lines in the target month. -/
theorem countBonusStep_foldl (driverID : String) (month : Nat) :
    ∀ (lines : List Line) (b : Bool) (n : Nat),
      lines.foldl (countBonusStep driverID month) (b, n) =
        (b || lines.any (isBonusLine driverID),
          n + lines.countP (isBonusLineInMonth driverID month)) := by
  intro lines
  induction lines with
  | nil => intro b n; simp
  | cons parts rest ih =>
    intro b n
    rw [List.foldl_cons, List.any_cons, List.countP_cons]
    by_cases h10 : parts.length < 10
    · have hb : isBonusLine driverID parts = false := by
        unfold isBonusLine
        rw [decide_eq_false (show ¬ 10 ≤ parts.length by omega)]
        rw [Bool.false_and, Bool.false_and]
      have hbm : isBonusLineInMonth driverID month parts = false := by
        unfold isBonusLineInMonth
        rw [hb, Bool.false_and]
      have hstep : countBonusStep driverID month (b, n) parts = (b, n) := by
        unfold countBonusStep
        rw [if_pos h10]
      rw [hstep, ih b n, hb, hbm]
      simp
    · by_cases hid : parts.get? 0 ≠ some driverID ∨ parts.get? 9 ≠ some "true"
      · have hb : isBonusLine driverID parts = false := by
          unfold isBonusLine
          rcases hid with h | h
          · rw [decide_eq_false h, Bool.and_false, Bool.false_and]
          · rw [decide_eq_false h, Bool.and_false]
        have hbm : isBonusLineInMonth driverID month parts = false := by
          unfold isBonusLineInMonth
          rw [hb, Bool.false_and]
        have hstep : countBonusStep driverID month (b, n) parts = (b, n) := by
          unfold countBonusStep
          rw [if_neg h10, if_pos hid]
        rw [hstep, ih b n, hb, hbm]
        simp
      · push_neg at hid
        obtain ⟨hid0, hid9⟩ := hid
        have hb : isBonusLine driverID parts = true := by
          unfold isBonusLine
          rw [decide_eq_true (show 10 ≤ parts.length by omega),
            decide_eq_true hid0, decide_eq_true hid9]
          rfl
        have hnid : ¬ (parts.get? 0 ≠ some driverID ∨ parts.get? 9 ≠ some "true") := by
          push_neg
          exact ⟨hid0, hid9⟩
        by_cases hm : monthOf ((parts.get? 2).getD "") = some month
        · have hbm : isBonusLineInMonth driverID month parts = true := by
            unfold isBonusLineInMonth
            rw [hb, decide_eq_true hm]
            rfl
          have hstep : countBonusStep driverID month (b, n) parts = (true, n + 1) := by
            unfold countBonusStep
            rw [if_neg h10, if_neg hnid, if_pos hm]
          rw [hstep, ih true (n + 1), hb, hbm]
          simp
          omega
        · have hbm : isBonusLineInMonth driverID month parts = false := by
            unfold isBonusLineInMonth
            rw [decide_eq_false hm, Bool.and_false]
          have hstep : countBonusStep driverID month (b, n) parts = (true, n) := by
            unfold countBonusStep
            rw [if_neg h10, if_neg hnid, if_neg hm]
          rw [hstep, ih true n, hb, hbm]
          simp

/-- Claim C2: `countBonusPerMonth` returns `-1` exactly when the file is
absent or the driver has no bonus-flagged record anywhere in the store
(regardless of month); otherwise it returns the number of the driver's
bonus-flagged records whose date's month equals the target month. -/
theorem countBonusPerMonth_spec (file : FileData) (driverID : String)
    (month : Nat) :
    (countBonusPerMonth file driverID month = -1 ↔
      (file = none ∨ ∀ parts ∈ file.getD [], isBonusLine driverID parts = false))
    ∧ (∀ lines, file = some lines →
        (∃ parts ∈ lines, isBonusLine driverID parts = true) →
        countBonusPerMonth file driverID month =
          (lines.countP (isBonusLineInMonth driverID month) : Int)) := by
  constructor
  · cases file with
    | none => simp [countBonusPerMonth]
    | some lines =>
      show (countBonusPerMonth (some lines) driverID month = -1 ↔ _)
      simp only [countBonusPerMonth]
      rw [countBonusStep_foldl]
      simp only [Bool.false_or, Nat.zero_add, Option.getD_some]
      by_cases hany : lines.any (isBonusLine driverID)
      · rw [if_pos hany]
        constructor
        · intro h
          have hnn : (0 : Int) ≤ (lines.countP (isBonusLineInMonth driverID month) : Int) :=
            Int.ofNat_nonneg _
          omega
        · intro h
          rcases h with h | h
          · exact absurd h (by simp)
          · rcases List.any_eq_true.mp hany with ⟨parts, hmem, hparts⟩
            rw [h parts hmem] at hparts
            cases hparts
      · rw [if_neg hany]
        constructor
        · intro _
          right
          intro parts hmem
          rcases Bool.eq_false_or_eq_true (isBonusLine driverID parts) with h | h
          · exact absurd (List.any_eq_true.mpr ⟨parts, hmem, h⟩) hany
          · exact h
        · intro _
          rfl
  · intro lines heq hex
    rw [heq]
    show countBonusPerMonth (some lines) driverID month = _
    simp only [countBonusPerMonth]
    rw [countBonusStep_foldl]
    simp only [Bool.false_or, Nat.zero_add]
    rcases hex with ⟨parts, hmem, hparts⟩
    rw [if_pos (List.any_eq_true.mpr ⟨parts, hmem, hparts⟩)]

/-- Witness for C2: a store with one bonus-flagged March record and one
later non-bonus record counts exactly one bonus for March. -/
theorem countBonusPerMonth_spec_witness :
    countBonusPerMonth
        (some [["D1", "Alice", "2025-03-01", "8:00:00 am", "5:00:00 pm",
          "9:00:00", "0:00:00", "9:00:00", "true", "true"],
          ["D1", "Alice", "2025-04-02", "8:00:00 am", "5:00:00 pm",
            "9:00:00", "0:00:00", "9:00:00", "true", "false"]])
        "D1" 3 = 1 := by
  have h := (countBonusPerMonth_spec
    (some [["D1", "Alice", "2025-03-01", "8:00:00 am", "5:00:00 pm",
      "9:00:00", "0:00:00", "9:00:00", "true", "true"],
      ["D1", "Alice", "2025-04-02", "8:00:00 am", "5:00:00 pm",
        "9:00:00", "0:00:00", "9:00:00", "true", "false"]])
    "D1" 3).2 _ rfl
    ⟨["D1", "Alice", "2025-03-01", "8:00:00 am", "5:00:00 pm",
      "9:00:00", "0:00:00", "9:00:00", "true", "true"],
      by simp, by decide⟩
  rw [h]
  decide

/-! ## Duplicate rejection (claim C8) -/

/-- The duplicate test at the line level: first field the driver, third
field the date (the source compares the 5-field read-back objects,
which carry exactly these parts). -/
def pairMatches (driverID date : String) (parts : Line) : Bool :=
  parts.get? 0 == some driverID && parts.get? 2 == some date

/-- How many lines of the store carry the given `(driverID, date)`
pair. -/
def pairCount (lines : List Line) (driverID date : String) : Nat :=
  lines.countP (pairMatches driverID date)

/-- The duplicate test of `addShiftRecord` over the 5-field read-backs
is the line-level pair test. -/
theorem isDup_map_readRaw (obj : ShiftObj) :
    ∀ lines : List Line,
      isDup (lines.map readRaw) obj =
        lines.any (pairMatches obj.driverID obj.date) := by
  intro lines
  induction lines with
  | nil => rfl
  | cons parts rest ih =>
    show ((readRaw parts :: List.map readRaw rest).any _) = _
    rw [List.any_cons, List.any_cons]
    have hrest : isDup (List.map readRaw rest) obj =
        rest.any (pairMatches obj.driverID obj.date) := ih
    unfold isDup at hrest
    rw [hrest]
    rfl

/-- Serialization after the 5-field read-back preserves the pair test on
lines with at least three fields. -/
theorem pairMatches_serialize_readRaw {parts : Line} (h : 3 ≤ parts.length)
    (driverID date : String) :
    pairMatches driverID date (serializeRecord (readRaw parts)) =
      pairMatches driverID date parts := by
  match parts, h with
  | p0 :: p1 :: p2 :: rest, _ => rfl

/-- Helper: a store already holding the pair makes `addShiftRecord`
return the empty object without modifying the file. -/
theorem addShiftRecord_dup_helper (lines : List Line) (obj : ShiftObj)
    (hex : ∃ parts ∈ lines, pairMatches obj.driverID obj.date parts = true) :
    addShiftRecord (some lines) obj = some (some lines, none) := by
  unfold addShiftRecord
  simp only [Option.getD_some]
  rw [if_pos]
  rw [isDup_map_readRaw]
  exact List.any_eq_true.mpr hex

/-- Claim C8: if a record with the same `(driverID, date)` already
exists, `addShiftRecord` returns the empty result and leaves the file
unchanged; and after a successful append the store holds exactly one
record for the pair, so a second append of the same pair returns the
empty result and leaves the store unchanged (lines are assumed to carry
at least their first three fields, as every line written by the store
does). -/
theorem addShiftRecord_duplicate_spec :
    (∀ (lines : List Line) (obj : ShiftObj),
      (∃ parts ∈ lines, pairMatches obj.driverID obj.date parts = true) →
      addShiftRecord (some lines) obj = some (some lines, none))
    ∧ (∀ (lines st : List Line) (obj : ShiftObj) (rec : RawShift),
      (∀ parts ∈ lines, 3 ≤ parts.length) →
      addShiftRecord (some lines) obj = some (some st, some rec) →
      pairCount st obj.driverID obj.date = 1 ∧
        addShiftRecord (some st) obj = some (some st, none)) := by
  constructor
  · exact addShiftRecord_dup_helper
  · intro lines st obj rec hwf h
    unfold addShiftRecord at h
    simp only [Option.getD_some] at h
    by_cases hdup : isDup (List.map readRaw lines) obj = true
    · rw [if_pos hdup] at h
      exact absurd (congrArg Prod.snd (Option.some.inj h)) (by simp)
    · rw [if_neg hdup] at h
      split at h
      · rename_i sd it hsd hit
        split at h
        · rename_i at_ hat
          split at h
          · rename_i mq hmq
            have hpair := Option.some.inj h
            have hst : some (List.map serializeRecord
                (List.insertionSort dateLe
                  (List.map readRaw lines ++ [newRecordOf obj sd it at_ mq]))) =
                some st := congrArg Prod.fst hpair
            have hst2 := Option.some.inj hst
            have hz : lines.countP (pairMatches obj.driverID obj.date) = 0 := by
              rw [isDup_map_readRaw] at hdup
              exact List.countP_eq_zero.mpr
                ((List.any_eq_false.mp (Bool.not_eq_true _ ▸ Bool.eq_false_iff.mpr hdup)))
            have hcount : pairCount st obj.driverID obj.date = 1 := by
              rw [← hst2]
              unfold pairCount
              rw [List.countP_map]
              rw [List.Perm.countP_eq _ (List.perm_insertionSort dateLe _)]
              show List.countP
                  ((pairMatches obj.driverID obj.date) ∘ serializeRecord)
                  (List.map readRaw lines ++ [newRecordOf obj sd it at_ mq]) = 1
              rw [List.countP_append, List.countP_map]
              have hold : List.countP
                  (((pairMatches obj.driverID obj.date) ∘ serializeRecord) ∘ readRaw)
                  lines = 0 := by
                rw [List.countP_congr (q := pairMatches obj.driverID obj.date)
                  (fun parts hmem => by
                    show pairMatches obj.driverID obj.date
                        (serializeRecord (readRaw parts)) = true ↔ _
                    rw [pairMatches_serialize_readRaw (hwf parts hmem)])]
                exact hz
              rw [hold]
              have hnew : pairMatches obj.driverID obj.date
                  (serializeRecord (newRecordOf obj sd it at_ mq)) = true := by
                unfold pairMatches serializeRecord newRecordOf showField
                simp
              simp [hnew]
            refine ⟨hcount, ?_⟩
            apply addShiftRecord_dup_helper
            have hpos : 0 < pairCount st obj.driverID obj.date := by omega
            exact List.countP_pos_iff.mp hpos
          · exact absurd h (by simp)
        · exact absurd h (by simp)
      · exact absurd h (by simp)

/-- Witness for C8: a duplicate `(D1, 2025-03-01)` append is rejected
without a write, and the store produced by one successful append holds
exactly one record for its pair. -/
theorem addShiftRecord_duplicate_spec_witness :
    addShiftRecord
        (some [["D1", "Alice", "2025-03-01", "8:00:00 am", "5:00:00 pm",
          "9:00:00", "0:00:00", "9:00:00", "true", "false"]])
        { driverID := "D1", driverName := "Ann", date := "2025-03-01",
          startTime := "7:00:00 am", endTime := "1:00:00 pm" } =
      some (some [["D1", "Alice", "2025-03-01", "8:00:00 am", "5:00:00 pm",
        "9:00:00", "0:00:00", "9:00:00", "true", "false"]], none)
    ∧ pairCount [["D3", "Cleo", "2025-03-05", "9:00:00 am", "5:00:00 pm",
        "8:00:00", "0:00:00", "8:00:00", "false", "false"]] "D3" "2025-03-05" = 1 :=
  ⟨addShiftRecord_duplicate_spec.1 _
      { driverID := "D1", driverName := "Ann", date := "2025-03-01",
        startTime := "7:00:00 am", endTime := "1:00:00 pm" }
      ⟨["D1", "Alice", "2025-03-01", "8:00:00 am", "5:00:00 pm",
        "9:00:00", "0:00:00", "9:00:00", "true", "false"], by simp, by decide⟩,
    (addShiftRecord_duplicate_spec.2 [] _
      { driverID := "D3", driverName := "Cleo", date := "2025-03-05",
        startTime := "9:00:00 am", endTime := "5:00:00 pm" }
      (newRecordOf
        { driverID := "D3", driverName := "Cleo", date := "2025-03-05",
          startTime := "9:00:00 am", endTime := "5:00:00 pm" }
        "8:00:00" "0:00:00" "8:00:00" false)
      (by simp) (by decide)).1⟩

/-! ## Required hours (claim C4) -/

/-- Whether a date falls on the given optional day-off weekday: the
claim's day-off exemption (`none` = driver absent from the rate table or
unknown weekday name, so no exemption is ever applied). -/
def fallsOnDayOff (dayOff : Option Nat) (dateStr : String) : Bool :=
  match parseDate dateStr, dayOff with
  | some (y, m, d), some k => dayOfWeek y m d == k
  | _, _ => false

/-- The daily threshold claim C4 assigns a date: the holiday threshold
(6h) inside the holiday window, else the ordinary threshold (8h24m). -/
def claimThreshold (dateStr : String) : Nat :=
  match parseDate dateStr with
  | some (y, m, d) => if isEidYMD y m d then MINIMUM_EID else MINIMUM_NORMAL
  | none => MINIMUM_NORMAL

/-- The required-hours total exactly as claim C4 words it: the sum, over
the distinct dates in the target month on which the driver has a record
and that do not fall on the day-off weekday, of the holiday or ordinary
threshold, minus `bonusCount × 2` hours, clamped at zero. -/
def requiredHoursSpec (shiftLines : List Line) (dayOff : Option Nat)
    (bonusCount : Int) (driverID : String) (month : Nat) : Int :=
  max 0
    (((((shiftLines.filterMap (lineDateInMonth driverID month)).dedup.filter
        (fun s => ! fallsOnDayOff dayOff s)).map claimThreshold).sum : Int) -
      bonusCount * 2 * 3600)

/-- Per date, the code's contribution against the numeric day-off equals
the claim's exemption-or-threshold. -/
theorem dailyRequirement_spec (o : Option Nat) (dateStr : String) :
    dailyRequirement (dayOffNumOf o) dateStr =
      if fallsOnDayOff o dateStr then 0 else claimThreshold dateStr := by
  cases hp : parseDate dateStr with
  | none =>
    have h1 : dailyRequirement (dayOffNumOf o) dateStr = MINIMUM_NORMAL := by
      unfold dailyRequirement
      rw [hp]
    have h2 : fallsOnDayOff o dateStr = false := by
      unfold fallsOnDayOff
      rw [hp]
    have h3 : claimThreshold dateStr = MINIMUM_NORMAL := by
      unfold claimThreshold
      rw [hp]
    rw [h1, h2, h3]
    simp
  | some ymd =>
    obtain ⟨y, m, d⟩ := ymd
    have h3 : claimThreshold dateStr =
        if isEidYMD y m d then MINIMUM_EID else MINIMUM_NORMAL := by
      unfold claimThreshold
      rw [hp]
    have h1 : dailyRequirement (dayOffNumOf o) dateStr =
        (if (dayOfWeek y m d : Int) = dayOffNumOf o then 0
         else if isEidYMD y m d then MINIMUM_EID else MINIMUM_NORMAL) := by
      unfold dailyRequirement
      rw [hp]
    rw [h1, h3]
    cases o with
    | none =>
      have h2 : fallsOnDayOff none dateStr = false := by
        unfold fallsOnDayOff
        rw [hp]
      rw [h2]
      have hne : ¬ ((dayOfWeek y m d : Int) = dayOffNumOf none) := by
        show ¬ ((dayOfWeek y m d : Int) = -1)
        omega
      rw [if_neg hne]
      simp
    | some k =>
      have h2 : fallsOnDayOff (some k) dateStr = (dayOfWeek y m d == k) := by
        unfold fallsOnDayOff
        rw [hp]
      rw [h2]
      by_cases he : dayOfWeek y m d = k
      · rw [if_pos (show (dayOfWeek y m d : Int) = dayOffNumOf (some k) by
          show (dayOfWeek y m d : Int) = (k : Int)
          exact_mod_cast he)]
        rw [beq_iff_eq.mpr he]
        simp
      · rw [if_neg (show ¬ ((dayOfWeek y m d : Int) = dayOffNumOf (some k)) by
          show ¬ ((dayOfWeek y m d : Int) = (k : Int))
          exact_mod_cast he)]
        rw [beq_eq_false_iff_ne.mpr he]
        simp

theorem foldl_add_eq_sum (f : String → Nat) :
    ∀ (l : List String) (acc : Nat),
      l.foldl (fun a s => a + f s) acc = acc + (l.map f).sum := by
  intro l
  induction l with
  | nil => intro acc; simp
  | cons x xs ih =>
    intro acc
    rw [List.foldl_cons, ih, List.map_cons, List.sum_cons]
    omega

/-- The accumulation of `getTotalRequiredSeconds` is the sum of the
per-date contributions. -/
theorem getTotalRequiredSeconds_eq (dates : List String) (k : Int) :
    getTotalRequiredSeconds dates k = (dates.map (dailyRequirement k)).sum := by
  unfold getTotalRequiredSeconds
  rw [foldl_add_eq_sum]
  omega

/-- Dropping the exempted dates and summing the claim's thresholds gives
the same total. -/
theorem sum_dailyRequirement_filter (o : Option Nat) :
    ∀ l : List String,
      (l.map (dailyRequirement (dayOffNumOf o))).sum =
        ((l.filter (fun s => ! fallsOnDayOff o s)).map claimThreshold).sum := by
  intro l
  induction l with
  | nil => rfl
  | cons x xs ih =>
    rw [List.map_cons, List.sum_cons, dailyRequirement_spec, ih, List.filter_cons]
    by_cases hx : fallsOnDayOff o x
    · simp [hx]
    · simp [hx]

/-- The fold of `getUniqueDates` builds a duplicate-free list whose
members are exactly the dates of the driver's well-formed records in the
target month. -/
theorem getUniqueDates_fold (driverID : String) (month : Nat) :
    ∀ (lines : List Line) (acc : List String), acc.Nodup →
      (lines.foldl (uniqueDatesStep driverID month) acc).Nodup ∧
        (∀ x, x ∈ lines.foldl (uniqueDatesStep driverID month) acc ↔
          (x ∈ acc ∨ ∃ parts ∈ lines, lineDateInMonth driverID month parts = some x)) := by
  intro lines
  induction lines with
  | nil =>
    intro acc hacc
    refine ⟨hacc, fun x => ?_⟩
    simp
  | cons parts rest ih =>
    intro acc hacc
    rw [List.foldl_cons]
    cases hstep : lineDateInMonth driverID month parts with
    | none =>
      have hs : uniqueDatesStep driverID month acc parts = acc := by
        unfold uniqueDatesStep
        rw [hstep]
      rw [hs]
      obtain ⟨hnd, hmem⟩ := ih acc hacc
      refine ⟨hnd, fun x => ?_⟩
      rw [hmem x]
      constructor
      · rintro (hx | ⟨p, hp, hpx⟩)
        · exact Or.inl hx
        · exact Or.inr ⟨p, List.mem_cons_of_mem _ hp, hpx⟩
      · rintro (hx | ⟨p, hp, hpx⟩)
        · exact Or.inl hx
        · rcases List.mem_cons.mp hp with heq | hp2
          · rw [heq] at hpx
            rw [hstep] at hpx
            cases hpx
          · exact Or.inr ⟨p, hp2, hpx⟩
    | some rdate =>
      by_cases hc : rdate ∈ acc
      · have hs : uniqueDatesStep driverID month acc parts = acc := by
          unfold uniqueDatesStep
          rw [hstep]
          show (if rdate ∈ acc then acc else acc ++ [rdate]) = acc
          rw [if_pos hc]
        rw [hs]
        obtain ⟨hnd, hmem⟩ := ih acc hacc
        refine ⟨hnd, fun x => ?_⟩
        rw [hmem x]
        constructor
        · rintro (hx | ⟨p, hp, hpx⟩)
          · exact Or.inl hx
          · exact Or.inr ⟨p, List.mem_cons_of_mem _ hp, hpx⟩
        · rintro (hx | ⟨p, hp, hpx⟩)
          · exact Or.inl hx
          · rcases List.mem_cons.mp hp with heq | hp2
            · rw [heq, hstep] at hpx
              exact Or.inl ((Option.some.inj hpx) ▸ hc)
            · exact Or.inr ⟨p, hp2, hpx⟩
      · have hs : uniqueDatesStep driverID month acc parts = acc ++ [rdate] := by
          unfold uniqueDatesStep
          rw [hstep]
          show (if rdate ∈ acc then acc else acc ++ [rdate]) = acc ++ [rdate]
          rw [if_neg hc]
        rw [hs]
        have hacc2 : (acc ++ [rdate]).Nodup := by
          have hperm : (acc ++ [rdate]).Perm (rdate :: acc) :=
            List.perm_append_singleton rdate acc
          exact hperm.nodup_iff.mpr (List.nodup_cons.mpr ⟨hc, hacc⟩)
        obtain ⟨hnd, hmem⟩ := ih _ hacc2
        refine ⟨hnd, fun x => ?_⟩
        rw [hmem x, List.mem_append, List.mem_singleton]
        constructor
        · rintro ((hx | rfl) | ⟨p, hp, hpx⟩)
          · exact Or.inl hx
          · exact Or.inr ⟨parts, List.mem_cons_self _ _, hstep⟩
          · exact Or.inr ⟨p, List.mem_cons_of_mem _ hp, hpx⟩
        · rintro (hx | ⟨p, hp, hpx⟩)
          · exact Or.inl (Or.inl hx)
          · rcases List.mem_cons.mp hp with heq | hp2
            · rw [heq, hstep] at hpx
              exact Or.inl (Or.inr (Option.some.inj hpx).symm)
            · exact Or.inr ⟨p, hp2, hpx⟩

/-- The code's insertion-order date set is a permutation of the claim's
deduplicated date list. -/
theorem getUniqueDates_perm (shiftLines : List Line) (driverID : String)
    (month : Nat) :
    (getUniqueDates shiftLines month driverID).Perm
      ((shiftLines.filterMap (lineDateInMonth driverID month)).dedup) := by
  obtain ⟨hnd, hmem⟩ :=
    getUniqueDates_fold driverID month shiftLines [] List.nodup_nil
  refine (List.perm_ext_iff_of_nodup hnd (List.nodup_dedup _)).mpr fun x => ?_
  rw [List.mem_dedup, List.mem_filterMap]
  rw [hmem x]
  simp

/-- Claim C4: with the driver's rate line readable (day-off string `w`,
which is `""` when the driver is absent, giving no exemption),
`getRequiredHoursPerMonth` computes exactly the claim's formula: the sum
over the distinct non-day-off dates of the driver's records in the
month of the holiday or ordinary threshold, minus two hours per bonus,
clamped at zero. -/
theorem getRequiredHours_spec (shiftLines rateLines : List Line)
    (bonusCount : Int) (driverID : String) (month : Nat) (w : String)
    (hday : getDayOff rateLines driverID = some w) :
    getRequiredHoursPerMonth (some shiftLines) (some rateLines) bonusCount
        driverID month =
      some (formatToTime
        (requiredHoursSpec shiftLines (DAYS w) bonusCount driverID month)) := by
  simp only [getRequiredHoursPerMonth]
  rw [hday]
  simp only [Option.map_some']
  congr 1
  rw [getTotalRequiredSeconds_eq]
  have hsum : ((getUniqueDates shiftLines month driverID).map
      (dailyRequirement (dayOffNumOf (DAYS w)))).sum =
      (((shiftLines.filterMap (lineDateInMonth driverID month)).dedup).map
        (dailyRequirement (dayOffNumOf (DAYS w)))).sum :=
    ((getUniqueDates_perm shiftLines driverID month).map _).sum_eq
  rw [hsum, sum_dailyRequirement_filter]
  unfold requiredHoursSpec
  congr 1
  split <;> omega

/-- Witness for C4: one Saturday record in March against a rate table
giving Friday off. -/
theorem getRequiredHours_spec_witness :
    getRequiredHoursPerMonth
        (some [["D1", "Alice", "2025-03-01", "8:00:00 am", "5:00:00 pm",
          "9:00:00", "0:00:00", "9:00:00", "true", "false"]])
        (some [["D1", "Friday", "18500", "2"]]) 1 "D1" 3 =
      some (formatToTime
        (requiredHoursSpec
          [["D1", "Alice", "2025-03-01", "8:00:00 am", "5:00:00 pm",
            "9:00:00", "0:00:00", "9:00:00", "true", "false"]]
          (DAYS "friday") 1 "D1" 3)) :=
  getRequiredHours_spec _ _ 1 "D1" 3 "friday" (by decide)

/-- Claim C1 (code bug in the source): a successful append does *not*
preserve the ten fields of pre-existing records.  `addShiftRecord`
parses only the first five fields of each existing line (source lines
153-162) and then rewrites every record through the ten-field template
(line 211), so fields 6-10 of every pre-existing record — including a
`hasBonus` that `setBonus` had set to `true` and the `metQuota` flag —
are replaced by the string `"undefined"`, while the claim (and the
spec) say all ten fields are preserved and `hasBonus` is mutable only
via `setBonus`. -/
theorem addShiftRecord_clobbers_prior_fields :
    addShiftRecord
        (some [["D1", "Alice", "2025-03-01", "8:00:00 am", "5:00:00 pm",
          "9:00:00", "0:00:00", "9:00:00", "true", "true"]])
        { driverID := "D2", driverName := "Bob", date := "2025-03-02",
          startTime := "9:00:00 am", endTime := "5:00:00 pm" } =
      some (some
        [["D1", "Alice", "2025-03-01", "8:00:00 am", "5:00:00 pm",
          "undefined", "undefined", "undefined", "undefined", "undefined"],
         ["D2", "Bob", "2025-03-02", "9:00:00 am", "5:00:00 pm",
          "8:00:00", "0:00:00", "8:00:00", "false", "false"]],
        some (newRecordOf
          { driverID := "D2", driverName := "Bob", date := "2025-03-02",
            startTime := "9:00:00 am", endTime := "5:00:00 pm" }
          "8:00:00" "0:00:00" "8:00:00" false)) := by
  decide

end ShiftTracker
